import Mathlib

/-
Shallow embedding of the page service in
src/server/src/services/page.service.ts (ToolJet).

Entity rows are records; the relational store is an explicit record of
row lists plus a fresh-id counter standing for database id generation.
Each service method becomes a pure function from a store to a store
(wrapped in Except for the thrown domain errors); the transactional
wrappers mean a thrown error yields no new store.  The per-row writes
issued concurrently inside one transaction in the source are
sequentialized in source order, which is the natural linearization.
-/

set_option maxHeartbeats 1000000

/-- A page row: id, name, handle, ordering index, owning version. -/
structure Page where
  id : Nat
  name : String
  handle : String
  index : Int
  appVersionId : Nat
deriving Repr, DecidableEq

/-- A component row: id, owning page, optional parent component reference. -/
structure Component where
  id : Nat
  pageId : Nat
  parent : Option Nat
deriving Repr, DecidableEq

/-- A layout row: id and owning component. -/
structure Layout where
  id : Nat
  componentId : Nat
deriving Repr, DecidableEq

/-- The structured event payload: an action id, and for control-component
actions a referenced component id (none models the JS undefined). -/
structure EventDefinition where
  actionId : String
  componentId : Option Nat
deriving Repr, DecidableEq

/-- An event handler row: id, the page or component owning it, payload. -/
structure EventHandler where
  id : Nat
  sourceId : Nat
  event : EventDefinition
deriving Repr, DecidableEq

/-- The slice of the version entity the service reads through
appService.findAppFromVersion: the editing version home page id. -/
structure AppVersion where
  id : Nat
  homePageId : Option Nat
deriving Repr, DecidableEq

/-- The relational store: one list per table plus the id generator. -/
structure Store where
  pages : List Page
  components : List Component
  layouts : List Layout
  events : List EventHandler
  versions : List AppVersion
  nextId : Nat
deriving Repr, DecidableEq

/-- Domain errors thrown by the service. -/
inductive PageError where
  | notFound
  | cannotDeleteHome
  | notDeleted
deriving Repr, DecidableEq

/-- needle occurs as a contiguous run inside the haystack character list
(the semantics of the JS String.prototype.includes). -/
def isSubstrList (needle : List Char) : List Char → Bool
  | [] => needle.isEmpty
  | a :: t => needle.isPrefixOf (a :: t) || isSubstrList needle t

/-- hay.includes needle in the JS sense. -/
def strIncludes (hay needle : String) : Bool :=
  isSubstrList needle.toList hay.toList

/-- Lookup in the componentsIdMap association list (JS object indexing:
a missing key yields undefined, here none). -/
def lookupMap (m : List (Nat × Nat)) (k : Nat) : Option Nat :=
  (m.find? (fun q => q.1 = k)).map (fun q => q.2)

/-- The event-payload rewrite performed on cloned events: a
control-component action has its componentId replaced by its image under
the componentsIdMap (undefined when the key is absent, including when
the map is still empty). -/
def remapEventDefinition (m : List (Nat × Nat)) (d : EventDefinition) : EventDefinition :=
  if d.actionId = "control-component" then
    { d with componentId := d.componentId.bind (lookupMap m) }
  else d

/-- The second-pass parent rewrite applied to one cloned component:
if the (copied) parent id resolves through the map, the parent field is
updated to the resolved id; otherwise the row is left as saved. -/
def parentFix (m : List (Nat × Nat)) (c : Component) : Component :=
  match c.parent.bind (lookupMap m) with
  | some p => { c with parent := some p }
  | none => c

/-- manager.save(Layout, clonedLayouts): batch insert with
database-assigned ids drawn from the counter. -/
def saveLayouts (s : Store) (ls : List Layout) : Store :=
  { s with layouts := s.layouts ++ ls.enum.map (fun q => { q.2 with id := s.nextId + q.1 }),
           nextId := s.nextId + ls.length }

/-- manager.save(EventHandler, clonedEvents): batch insert with
database-assigned ids drawn from the counter. -/
def saveEvents (s : Store) (es : List EventHandler) : Store :=
  { s with events := s.events ++ es.enum.map (fun q => { q.2 with id := s.nextId + q.1 }),
           nextId := s.nextId + es.length }

/-- The body of the pageComponents loop of clonePageEventsAndComponents:
save the cloned component (all fields copied, fresh id, rebound to the
cloned page), record the old-to-new id mapping, clone the layout rows of
the original component (rebound to the new component id), clone the event
handlers of the original component (payload remapped through the map as
populated so far, source rebound to the new component id). -/
def cloneOneComponent (clonePageId : Nat)
    (acc : Store × List (Nat × Nat) × List Component) (c : Component) :
    Store × List (Nat × Nat) × List Component :=
  let s := acc.1
  let m := acc.2.1
  let cloned := acc.2.2
  let newComponent : Component := { c with id := s.nextId, pageId := clonePageId }
  let s1 : Store := { s with components := s.components ++ [newComponent],
                             nextId := s.nextId + 1 }
  let m2 := m ++ [(c.id, newComponent.id)]
  let componentLayouts := s1.layouts.filter (fun l => l.componentId = c.id)
  let clonedLayouts := componentLayouts.map (fun l => { l with componentId := newComponent.id })
  let componentEvents := s1.events.filter (fun e => e.sourceId = c.id)
  let clonedEvents := componentEvents.map
    (fun e => { e with sourceId := newComponent.id,
                       event := remapEventDefinition m2 e.event })
  let s2 := saveLayouts s1 clonedLayouts
  let s3 := saveEvents s2 clonedEvents
  (s3, m2, cloned ++ [newComponent])

/-- One step of the final parent-remap loop: if the parent id recorded on
the cloned component resolves through the componentsIdMap, update that
component row with the resolved parent. -/
def parentPassStep (m : List (Nat × Nat)) (s : Store) (c : Component) : Store :=
  match c.parent.bind (lookupMap m) with
  | some newParent =>
      { s with components := (s.components.map
          (fun q => if q.id = c.id then { q with parent := some newParent } else q)) }
  | none => s

/-- clonePageEventsAndComponents(pageId, clonePageId): clone the
page-level events first (the componentsIdMap is empty at that point, as
in the source), then clone every component with its layouts and events,
then run the parent-remap pass over the cloned components. -/
def clonePageEventsAndComponents (st : Store) (pageId clonePageId : Nat) : Store :=
  let pageComponents := st.components.filter (fun c => c.pageId = pageId)
  let pageEvents := st.events.filter (fun e => e.sourceId = pageId)
  let st1 := saveEvents st (pageEvents.map
    (fun e => { e with sourceId := clonePageId,
                       event := remapEventDefinition [] e.event }))
  let res := pageComponents.foldl (cloneOneComponent clonePageId) (st1, [], [])
  let componentsIdMap := res.2.1
  let clonedComponents := res.2.2
  clonedComponents.foldl (parentPassStep componentsIdMap) res.1

/-- clonePage(pageId, appVersionId): find the source page, compute the
copy name and handle with the substring collision heuristic, insert the
new page row at index source.index + 1, then clone events and
components.  Returns the new store and the cloned page id. -/
def clonePage (st : Store) (pageId : Nat) (appVersionId : Nat) :
    Except PageError (Store × Nat) :=
  match st.pages.find? (fun p => p.id = pageId) with
  | none => .error .notFound
  | some pageToClone =>
    let pageName := pageToClone.name ++ " (copy)"
    let pageHandle := pageToClone.handle ++ "-copy"
    let allPages := st.pages.filter (fun p => p.appVersionId = appVersionId)
    let pageNameORHandleExists := allPages.filter
      (fun p => strIncludes p.name pageName || strIncludes p.handle pageHandle)
    let finalName := if pageNameORHandleExists.length > 0 then
        pageToClone.name ++ " (copy " ++ toString pageNameORHandleExists.length ++ ")"
      else pageName
    let finalHandle := if pageNameORHandleExists.length > 0 then
        pageToClone.handle ++ "-copy-" ++ toString pageNameORHandleExists.length
      else pageHandle
    let newPage : Page := { id := st.nextId, name := finalName, handle := finalHandle,
                            index := pageToClone.index + 1, appVersionId := appVersionId }
    let st1 : Store := { st with pages := st.pages ++ [newPage], nextId := st.nextId + 1 }
    let st2 := clonePageEventsAndComponents st1 pageId newPage.id
    .ok (st2, newPage.id)

/-- A value of the update change-set object.  For a single-field update
the keys are column names with primitive values; for the reorder path the
keys are page ids and the values are objects carrying an index. -/
inductive DiffEntry where
  | str (s : String)
  | int (i : Int)
  | obj (index : Int)
deriving Repr, DecidableEq

/-- Reading .index off a change-set value: undefined (none) unless the
value is an object with an index property. -/
def DiffEntry.indexVal : DiffEntry → Option Int
  | .obj i => some i
  | .str _ => none
  | .int _ => none

/-- The UpdatePageDto shape: target page id plus the change-set. -/
structure UpdatePageDto where
  pageId : Nat
  diff : List (String × DiffEntry)
deriving Repr, DecidableEq

/-- Applying one change-set entry as a column update on a page row
(pageRepository.update with a partial entity). -/
def applyDiffField (p : Page) (kv : String × DiffEntry) : Page :=
  match kv with
  | ("name", .str s) => { p with name := s }
  | ("handle", .str s) => { p with handle := s }
  | ("index", .int i) => { p with index := i }
  | _ => p

/-- updatePagesOrder(pages, appVersionId): each key of the map is a page
id (compared against the id column in its string form) whose row gets its
index column set; an update addressed to an absent id affects no row. -/
def updatePagesOrder (st : Store) (pagesDiff : List (String × DiffEntry))
    (_appVersionId : Nat) : Store :=
  pagesDiff.foldl (fun s kv =>
    { s with pages := s.pages.map (fun q =>
        if toString q.id = kv.1 then
          match kv.2.indexVal with
          | some i => { q with index := i }
          | none => q
        else q) }) st

/-- updatePage(pageUpdates, appVersionId): a change-set with more than
one key is delegated whole to updatePagesOrder; otherwise the target page
must exist and the change-set is applied as a partial update. -/
def updatePage (st : Store) (dto : UpdatePageDto) (appVersionId : Nat) :
    Except PageError Store :=
  if dto.diff.length > 1 then
    .ok (updatePagesOrder st dto.diff appVersionId)
  else
    match st.pages.find? (fun p => p.id = dto.pageId) with
    | none => .error .notFound
    | some _ =>
      .ok { st with pages := st.pages.map (fun q =>
              if q.id = dto.pageId then dto.diff.foldl applyDiffField q else q) }

/-- rearrangePagesOnDelete(pages, pageDeletedIndex): decrement the index
of every page whose array position i satisfies i + 1 >= the deleted index
(taken verbatim from the source, array position against index value). -/
def rearrangePagesOnDelete (pages : List Page) (pageDeletedIndex : Int) : List Page :=
  pages.enum.map (fun q =>
    if (q.1 : Int) + 1 ≥ pageDeletedIndex then { q.2 with index := q.2.index - 1 }
    else q.2)

/-- deletePage(pageId, appVersionId): resolve the editing version home
page, require the page to exist, refuse to delete the home page, cascade
delete the page events, delete the row, reindex the remaining pages of
the version through rearrangePagesOnDelete and persist them. -/
def deletePage (st : Store) (pageId : Nat) (appVersionId : Nat) :
    Except PageError Store :=
  let editingVersion := st.versions.find? (fun v => v.id = appVersionId)
  match st.pages.find? (fun p => p.id = pageId) with
  | none => .error .notFound
  | some pageExists =>
    if editingVersion.bind (fun v => v.homePageId) = some pageId then
      .error .cannotDeleteHome
    else
      let st1 : Store := { st with events := (st.events.filter
                            (fun e => ¬ (e.sourceId = pageExists.id))) }
      let pageDeletedIndex := pageExists.index
      let affected := (st1.pages.filter (fun p => p.id = pageId)).length
      let st2 : Store := { st1 with pages := st1.pages.filter (fun p => ¬ (p.id = pageId)) }
      if affected = 0 then .error .notDeleted
      else
        let pagesOfVersion := st2.pages.filter
          (fun p => p.appVersionId = pageExists.appVersionId)
        let rearrangedPages := rearrangePagesOnDelete pagesOfVersion pageDeletedIndex
        .ok (rearrangedPages.foldl (fun s p =>
          { s with pages := s.pages.map (fun q => if q.id = p.id then p else q) }) st2)

/-- The components belonging to one page. -/
def componentsOfPage (st : Store) (pid : Nat) : List Component :=
  st.components.filter (fun c => c.pageId = pid)

/-- How many layout rows belong to the components of one page. -/
def layoutCountOfPage (st : Store) (pid : Nat) : Nat :=
  (st.layouts.filter (fun l =>
    (componentsOfPage st pid).any (fun c => c.id = l.componentId))).length

/-- How many event handler rows belong to one page or to its components. -/
def eventCountOfPage (st : Store) (pid : Nat) : Nat :=
  (st.events.filter (fun e =>
    e.sourceId = pid || (componentsOfPage st pid).any (fun c => c.id = e.sourceId))).length

/-- Store sanity: every row id is below the id counter, foreign keys are
below the counter as well, and row ids are globally distinct, as database
id generation guarantees. -/
structure Store.WF (st : Store) : Prop where
  pages_lt : ∀ p ∈ st.pages, p.id < st.nextId
  comps_lt : ∀ c ∈ st.components, c.id < st.nextId
  comps_page_lt : ∀ c ∈ st.components, c.pageId < st.nextId
  layouts_lt : ∀ l ∈ st.layouts, l.id < st.nextId
  layouts_comp_lt : ∀ l ∈ st.layouts, l.componentId < st.nextId
  events_lt : ∀ e ∈ st.events, e.id < st.nextId
  events_src_lt : ∀ e ∈ st.events, e.sourceId < st.nextId
  ids_nodup : (st.pages.map (fun p => p.id) ++ st.components.map (fun c => c.id) ++
               st.layouts.map (fun l => l.id) ++ st.events.map (fun e => e.id)).Nodup

deriving instance DecidableEq for Except

/-- The home page of the sample version. -/
def homePageW : Page :=
  { id := 1, name := "Home", handle := "home", index := 0, appVersionId := 0 }

/-- A page whose name and handle already carry the copy suffix. -/
def copyPageW : Page :=
  { id := 2, name := "Home (copy)", handle := "home-copy", index := 1, appVersionId := 0 }

/-- The sample version row. -/
def versionW : AppVersion := { id := 0, homePageId := some 1 }

/-- A sample store: one version with a home page and an existing copy
page, two components on the home page (one nested), a layout row and two
event handlers (one page-level control-component event, one component
event). -/
def W : Store :=
  { pages := [homePageW, copyPageW],
    components := [{ id := 3, pageId := 1, parent := none },
                   { id := 4, pageId := 1, parent := some 3 }],
    layouts := [{ id := 5, componentId := 3 }],
    events := [{ id := 6, sourceId := 1,
                 event := { actionId := "control-component", componentId := some 3 } },
               { id := 7, sourceId := 4,
                 event := { actionId := "run-query", componentId := none } }],
    versions := [versionW],
    nextId := 8 }

/-- Three pages with dense indices 0, 1, 2 in one version. -/
def stC1 : Store :=
  { pages := [{ id := 1, name := "A", handle := "a", index := 0, appVersionId := 0 },
              { id := 2, name := "B", handle := "b", index := 1, appVersionId := 0 },
              { id := 3, name := "C", handle := "c", index := 2, appVersionId := 0 }],
    components := [], layouts := [], events := [],
    versions := [{ id := 0, homePageId := some 1 }], nextId := 4 }

/-- A store whose version points at a home page id with no page row. -/
def stC3x : Store :=
  { pages := [{ id := 1, name := "A", handle := "a", index := 0, appVersionId := 0 }],
    components := [], layouts := [], events := [],
    versions := [{ id := 0, homePageId := some 5 }], nextId := 6 }

/-- A multi-key change-set addressed to a page id with no page row. -/
def dtoMulti : UpdatePageDto :=
  { pageId := 99, diff := [("5", .obj 7), ("6", .obj 8)] }

/-- A single-key change-set addressed to a page id with no page row. -/
def dtoSingle : UpdatePageDto :=
  { pageId := 99, diff := [("name", .str "x")] }

/-- The number of pages of the version whose name contains the base copy
name of P, or whose handle contains the base copy handle of P, as a
substring. -/
def copyCollisionCount (st : Store) (P : Page) (vid : Nat) : Nat :=
  ((st.pages.filter (fun p => p.appVersionId = vid)).filter
    (fun p => strIncludes p.name (P.name ++ " (copy)")
      || strIncludes p.handle (P.handle ++ "-copy"))).length

/-- The page row inserted by clonePage for source page P. -/
def clonedPageRow (st : Store) (P : Page) (vid : Nat) : Page :=
  { id := st.nextId,
    name := if copyCollisionCount st P vid > 0 then
        P.name ++ " (copy " ++ toString (copyCollisionCount st P vid) ++ ")"
      else P.name ++ " (copy)",
    handle := if copyCollisionCount st P vid > 0 then
        P.handle ++ "-copy-" ++ toString (copyCollisionCount st P vid)
      else P.handle ++ "-copy",
    index := P.index + 1,
    appVersionId := vid }

/-- The store right after clonePage inserts the cloned page row. -/
def clonePageInserted (st : Store) (P : Page) (vid : Nat) : Store :=
  { st with pages := st.pages ++ [clonedPageRow st P vid], nextId := st.nextId + 1 }

/- ------------------------------------------------------------------ -/
/- Helper lemmas                                                       -/
/- ------------------------------------------------------------------ -/

theorem getLast?_append_single {α : Type} (l : List α) (a : α) :
    (l ++ [a]).getLast? = some a := by
  exact List.getLast?_concat l

theorem cloneOneComponent_pages (cpid : Nat)
    (acc : Store × List (Nat × Nat) × List Component) (c : Component) :
    (cloneOneComponent cpid acc c).1.pages = acc.1.pages := rfl

theorem cloneFold_pages (cpid : Nat) (cs : List Component) :
    ∀ acc, (cs.foldl (cloneOneComponent cpid) acc).1.pages = acc.1.pages := by
  induction cs with
  | nil => intro acc; rfl
  | cons c t ih => intro acc; rw [List.foldl_cons, ih, cloneOneComponent_pages]

theorem parentPassStep_pages (m : List (Nat × Nat)) (s : Store) (c : Component) :
    (parentPassStep m s c).pages = s.pages := by
  unfold parentPassStep; split <;> rfl

theorem parentPass_pages (m : List (Nat × Nat)) (cs : List Component) :
    ∀ s, (cs.foldl (parentPassStep m) s).pages = s.pages := by
  induction cs with
  | nil => intro s; rfl
  | cons c t ih => intro s; rw [List.foldl_cons, ih, parentPassStep_pages]

theorem clonePageEventsAndComponents_pages (st : Store) (p q : Nat) :
    (clonePageEventsAndComponents st p q).pages = st.pages := by
  simp only [clonePageEventsAndComponents]
  rw [parentPass_pages, cloneFold_pages]
  rfl

/- ------------------------------------------------------------------ -/
/- Claim theorems                                                      -/
/- ------------------------------------------------------------------ -/

/-- C1: the spec claims that after deletePage the remaining indices are
dense and contiguous from the pre-delete minimum, and that deleting B
from [A(0), B(1), C(2)] yields [A(0), C(1)].  Evaluating the code on that
exact store: the result is A at index -1 and C at index 1, because
rearrangePagesOnDelete decrements every page whose array position i
satisfies i + 1 >= the deleted index, one position too early. -/
theorem deletePage_index_off_by_one :
    (deletePage stC1 2 0).map (fun s => s.pages.map (fun p => (p.id, p.index)))
      = .ok [(1, -1), (3, 1)] := rfl

/-- C2: the spec claims every cloned control-component event referencing
a component of the source page is rewritten to the cloned component id.
Evaluating the code on store W: component 3 of page 1 is cloned as
component 10 of page 8, yet the cloned page-level control-component
event (source 8) carries componentId none rather than some 10, because
the componentsIdMap is still empty when page-level events are cloned. -/
theorem clonePage_pageEvent_remap_undefined :
    ((clonePage W 1 0).map (fun r => r.1.events.map
        (fun e => (e.sourceId, e.event.actionId, e.event.componentId)))
      = .ok [(1, "control-component", some 3), (4, "run-query", none),
             (8, "control-component", none), (12, "run-query", none)])
    ∧ ((clonePage W 1 0).map (fun r => (componentsOfPage r.1 8).map (fun c => c.id))
      = .ok [10, 12]) :=
  ⟨rfl, rfl⟩

/-- C3 counterexample: in a store whose version names home page 5 while
no page row 5 exists, deletePage on the home page id fails with NotFound,
not with the home-page invariant violation, because the existence check
runs before the home-page check. -/
theorem deletePage_home_missing_notFound :
    ((stC3x.versions.find? (fun v => v.id = 0)).bind (fun v => v.homePageId) = some 5)
    ∧ deletePage stC3x 5 0 = .error .notFound
    ∧ deletePage stC3x 5 0 ≠ .error .cannotDeleteHome :=
  ⟨rfl, rfl, by decide⟩

/-- C3 (amended): when the home page id of the version also exists as a
page row, deletePage on it fails with the cannot-delete-home-page error;
the thrown error aborts the transaction, so no store change occurs. -/
theorem deletePage_home_page_guard (st : Store) (pageId vid : Nat)
    (V : AppVersion) (p : Page)
    (hver : st.versions.find? (fun v => v.id = vid) = some V)
    (hhome : V.homePageId = some pageId)
    (hfind : st.pages.find? (fun q => q.id = pageId) = some p) :
    deletePage st pageId vid = .error .cannotDeleteHome := by
  simp [deletePage, hver, hfind, hhome]

/-- C3 witness: the guard fires on the sample store W. -/
theorem deletePage_home_page_guard_check :
    (W.versions.find? (fun v => v.id = 0) = some versionW)
    ∧ versionW.homePageId = some 1
    ∧ (W.pages.find? (fun q => q.id = 1) = some homePageW)
    ∧ deletePage W 1 0 = .error .cannotDeleteHome :=
  ⟨rfl, rfl, rfl, deletePage_home_page_guard W 1 0 versionW homePageW rfl rfl rfl⟩

/-- C4 counterexample: with a change-set touching more than one key and a
target page id that does not exist, updatePage does not fail with
NotFound; it delegates to updatePagesOrder and returns successfully
(here leaving the store untouched). -/
theorem updatePage_multikey_missing_ok :
    (W.pages.find? (fun p => p.id = dtoMulti.pageId) = none)
    ∧ updatePage W dtoMulti 0 = .ok W :=
  ⟨rfl, rfl⟩

/-- C4 (amended): only when the change-set has at most one key does
updatePage fail with NotFound on a missing target page (no row is
modified, the error aborting the transaction); with more than one key it
delegates to updatePagesOrder, which performs no existence check. -/
theorem updatePage_missing_notFound_single (st : Store) (dto : UpdatePageDto) (vid : Nat)
    (h1 : dto.diff.length ≤ 1)
    (h2 : st.pages.find? (fun p => p.id = dto.pageId) = none) :
    updatePage st dto vid = .error .notFound := by
  unfold updatePage
  rw [if_neg (by omega), h2]

/-- C4 witness: the single-key NotFound path fires on the sample store. -/
theorem updatePage_missing_notFound_single_check :
    dtoSingle.diff.length ≤ 1
    ∧ (W.pages.find? (fun p => p.id = dtoSingle.pageId) = none)
    ∧ updatePage W dtoSingle 0 = .error .notFound :=
  ⟨by decide, rfl, updatePage_missing_notFound_single W dtoSingle 0 (by decide) rfl⟩

/-- C5: updatePage on a change-set touching more than one key produces
exactly the end state of calling updatePagesOrder directly with that
change-set and version id. -/
theorem updatePage_multikey_delegates (st : Store) (dto : UpdatePageDto) (vid : Nat)
    (h : dto.diff.length > 1) :
    updatePage st dto vid = .ok (updatePagesOrder st dto.diff vid) := by
  unfold updatePage
  rw [if_pos h]

/-- C5 witness: the delegation equality at a concrete multi-key input. -/
theorem updatePage_multikey_delegates_check :
    dtoMulti.diff.length > 1
    ∧ updatePage W dtoMulti 0 = .ok (updatePagesOrder W dtoMulti.diff 0) :=
  ⟨by decide, updatePage_multikey_delegates W dtoMulti 0 (by decide)⟩

/-- C6: when n > 0 pages of the version have a name containing the base
copy name or a handle containing the base copy handle as a substring, the
cloned page is created with name "<orig> (copy n)" and handle
"<orig>-copy-n". -/
theorem clonePage_collision_naming (st : Store) (pageId vid : Nat) (P : Page) (n : Nat)
    (hfind : st.pages.find? (fun p => p.id = pageId) = some P)
    (hn : ((st.pages.filter (fun p => p.appVersionId = vid)).filter
          (fun p => strIncludes p.name (P.name ++ " (copy)")
                    || strIncludes p.handle (P.handle ++ "-copy"))).length = n)
    (hpos : 0 < n) :
    (clonePage st pageId vid).map
        (fun r => r.1.pages.getLast?.map (fun q => (q.name, q.handle)))
      = .ok (some (P.name ++ " (copy " ++ toString n ++ ")",
                   P.handle ++ "-copy-" ++ toString n)) := by
  simp only [clonePage, hfind, Except.map]
  rw [clonePageEventsAndComponents_pages, getLast?_append_single]
  rw [hn, if_pos hpos, if_pos hpos]
  rfl

/-- C6 witness: cloning "Home" (handle "home") while "Home (copy)" with
handle "home-copy" exists yields name "Home (copy 1)", handle
"home-copy-1". -/
theorem clonePage_collision_naming_check :
    (W.pages.find? (fun p => p.id = 1) = some homePageW)
    ∧ ((W.pages.filter (fun p => p.appVersionId = 0)).filter
          (fun p => strIncludes p.name (homePageW.name ++ " (copy)")
                    || strIncludes p.handle (homePageW.handle ++ "-copy"))).length = 1
    ∧ (clonePage W 1 0).map
        (fun r => r.1.pages.getLast?.map (fun q => (q.name, q.handle)))
      = .ok (some ("Home (copy 1)", "home-copy-1")) := by
  refine ⟨rfl, by decide, ?_⟩
  exact clonePage_collision_naming W 1 0 homePageW 1 rfl (by decide) (by decide)

theorem snd_mem_of_mem_enumFrom {α : Type} :
    ∀ (l : List α) (n : Nat) (x : Nat × α), x ∈ l.enumFrom n → x.2 ∈ l
  | [], _, _, h => by cases h
  | a :: t, n, x, h => by
    rcases List.mem_cons.1 h with rfl | h
    · exact List.mem_cons_self a t
    · exact List.mem_cons_of_mem a (snd_mem_of_mem_enumFrom t (n + 1) x h)

theorem snd_mem_of_mem_enum {α : Type} {l : List α} {x : Nat × α}
    (h : x ∈ l.enum) : x.2 ∈ l :=
  snd_mem_of_mem_enumFrom l 0 x h

theorem enum_length {α : Type} (l : List α) : l.enum.length = l.length :=
  List.enumFrom_length

/-- What one iteration of the component-clone loop does to the store, the
componentsIdMap and the cloned-components accumulator. -/
theorem cloneOneComponent_spec (cpid : Nat) (s : Store) (m : List (Nat × Nat))
    (cl : List Component) (c : Component) :
    ∃ L E,
      (cloneOneComponent cpid (s, m, cl) c).1.pages = s.pages ∧
      (cloneOneComponent cpid (s, m, cl) c).1.versions = s.versions ∧
      (cloneOneComponent cpid (s, m, cl) c).1.components
        = s.components ++ [{ c with id := s.nextId, pageId := cpid }] ∧
      (cloneOneComponent cpid (s, m, cl) c).1.layouts = s.layouts ++ L ∧
      (cloneOneComponent cpid (s, m, cl) c).1.events = s.events ++ E ∧
      s.nextId + 1 ≤ (cloneOneComponent cpid (s, m, cl) c).1.nextId ∧
      (cloneOneComponent cpid (s, m, cl) c).2.1 = m ++ [(c.id, s.nextId)] ∧
      (cloneOneComponent cpid (s, m, cl) c).2.2
        = cl ++ [{ c with id := s.nextId, pageId := cpid }] ∧
      (∀ l ∈ L, l.componentId = s.nextId) ∧
      L.length = (s.layouts.filter (fun l => l.componentId = c.id)).length ∧
      (∀ e ∈ E, e.sourceId = s.nextId) ∧
      E.length = (s.events.filter (fun e => e.sourceId = c.id)).length := by
  refine ⟨_, _, rfl, rfl, rfl, rfl, rfl, ?_, rfl, rfl, ?_, ?_, ?_, ?_⟩
  · exact Nat.le_trans (Nat.le_add_right _ _) (Nat.le_add_right _ _)
  · intro l hl
    rcases List.mem_map.1 hl with ⟨q, hq, rfl⟩
    rcases List.mem_map.1 (snd_mem_of_mem_enum hq) with ⟨l0, _, heq⟩
    show q.2.componentId = s.nextId
    rw [← heq]
  · rw [List.length_map, enum_length, List.length_map]
  · intro e he
    rcases List.mem_map.1 he with ⟨q, hq, rfl⟩
    rcases List.mem_map.1 (snd_mem_of_mem_enum hq) with ⟨e0, _, heq⟩
    show q.2.sourceId = s.nextId
    rw [← heq]
  · rw [List.length_map, enum_length, List.length_map]

/-- What the whole component-clone loop does, by induction on the list of
source components: the store grows by cloned components (one per source,
in order, bound to the clone page, with fresh strictly increasing ids),
cloned layouts and cloned events; the componentsIdMap grows by exactly
the old-to-new id pairs, and the accumulator by the new components. -/
theorem cloneFold_spec (cpid : Nat) (cs : List Component) :
    ∀ (s : Store) (m : List (Nat × Nat)) (cl : List Component),
      (∀ c ∈ cs, c.id < s.nextId) →
      ∃ nC nL nE,
        (cs.foldl (cloneOneComponent cpid) (s, m, cl)).1.pages = s.pages ∧
        (cs.foldl (cloneOneComponent cpid) (s, m, cl)).1.versions = s.versions ∧
        s.nextId ≤ (cs.foldl (cloneOneComponent cpid) (s, m, cl)).1.nextId ∧
        (cs.foldl (cloneOneComponent cpid) (s, m, cl)).1.components = s.components ++ nC ∧
        (cs.foldl (cloneOneComponent cpid) (s, m, cl)).1.layouts = s.layouts ++ nL ∧
        (cs.foldl (cloneOneComponent cpid) (s, m, cl)).1.events = s.events ++ nE ∧
        (cs.foldl (cloneOneComponent cpid) (s, m, cl)).2.1
          = m ++ (cs.map (fun c => c.id)).zip (nC.map (fun c => c.id)) ∧
        (cs.foldl (cloneOneComponent cpid) (s, m, cl)).2.2 = cl ++ nC ∧
        List.Forall₂ (fun c nc => nc.pageId = cpid ∧ nc.parent = c.parent) cs nC ∧
        (∀ nc ∈ nC, s.nextId ≤ nc.id ∧
          nc.id < (cs.foldl (cloneOneComponent cpid) (s, m, cl)).1.nextId ∧
          nc.pageId = cpid) ∧
        (nC.map (fun nc => nc.id)).Pairwise (fun a b => a < b) ∧
        (∀ l ∈ nL, s.nextId ≤ l.componentId ∧ ∃ nc ∈ nC, l.componentId = nc.id) ∧
        nL.length = (cs.map (fun c =>
          (s.layouts.filter (fun l => l.componentId = c.id)).length)).sum ∧
        (∀ e ∈ nE, s.nextId ≤ e.sourceId ∧ ∃ nc ∈ nC, e.sourceId = nc.id) ∧
        nE.length = (cs.map (fun c =>
          (s.events.filter (fun e => e.sourceId = c.id)).length)).sum := by
  induction cs with
  | nil =>
    intro s m cl _
    refine ⟨[], [], [], rfl, rfl, Nat.le_refl _, (List.append_nil _).symm,
      (List.append_nil _).symm, (List.append_nil _).symm, ?_, (List.append_nil _).symm,
      List.Forall₂.nil, ?_, List.Pairwise.nil, ?_, rfl, ?_, rfl⟩
    · exact (List.append_nil _).symm
    · intro nc hnc; cases hnc
    · intro l hl; cases hl
    · intro e he; cases he
  | cons c rest ih =>
    intro s m cl h
    obtain ⟨L, E, hp, hv, hcomp, hlay, hev, hnext, hm, hcl2, hLc, hLlen, hEs, hElen⟩ :=
      cloneOneComponent_spec cpid s m cl c
    have hrest : ∀ c2 ∈ rest, c2.id < (cloneOneComponent cpid (s, m, cl) c).1.nextId :=
      fun c2 hc2 => Nat.lt_of_lt_of_le (h c2 (List.mem_cons_of_mem _ hc2))
        (Nat.le_trans (Nat.le_succ _) hnext)
    obtain ⟨nC, nL, nE, ihp, ihv, ihnext, ihcomp, ihlay, ihev, ihm, ihcl, ihfa, ihbnd,
      ihpw, ihL, ihLlen, ihE, ihElen⟩ :=
      ih (cloneOneComponent cpid (s, m, cl) c).1 (cloneOneComponent cpid (s, m, cl) c).2.1
        (cloneOneComponent cpid (s, m, cl) c).2.2 hrest
    have heta : ((cloneOneComponent cpid (s, m, cl) c).1,
        (cloneOneComponent cpid (s, m, cl) c).2.1,
        (cloneOneComponent cpid (s, m, cl) c).2.2) = cloneOneComponent cpid (s, m, cl) c := rfl
    rw [heta] at ihp ihv ihnext ihcomp ihlay ihev ihm ihcl ihbnd
    rw [List.foldl_cons]
    refine ⟨{ c with id := s.nextId, pageId := cpid } :: nC, L ++ nL, E ++ nE,
      ?_, ?_, ?_, ?_, ?_, ?_, ?_, ?_, ?_, ?_, ?_, ?_, ?_, ?_, ?_⟩
    · rw [ihp, hp]
    · rw [ihv, hv]
    · exact Nat.le_trans (Nat.le_trans (Nat.le_succ _) hnext) ihnext
    · rw [ihcomp, hcomp, List.append_assoc]; rfl
    · rw [ihlay, hlay, List.append_assoc]
    · rw [ihev, hev, List.append_assoc]
    · rw [ihm, hm, List.append_assoc]; rfl
    · rw [ihcl, hcl2, List.append_assoc]; rfl
    · exact List.Forall₂.cons ⟨rfl, rfl⟩ ihfa
    · intro nc hnc
      rcases List.mem_cons.1 hnc with rfl | hnc
      · exact ⟨Nat.le_refl _,
          Nat.lt_of_lt_of_le (Nat.lt_succ_self _) (Nat.le_trans hnext ihnext), rfl⟩
      · obtain ⟨h1, h2, h3⟩ := ihbnd nc hnc
        exact ⟨Nat.le_trans (Nat.le_trans (Nat.le_succ _) hnext) h1, h2, h3⟩
    · rw [List.map_cons]
      refine List.pairwise_cons.2 ⟨?_, ihpw⟩
      intro b hb
      rcases List.mem_map.1 hb with ⟨nc, hnc, rfl⟩
      exact Nat.lt_of_lt_of_le (Nat.lt_succ_self _)
        (Nat.le_trans hnext (ihbnd nc hnc).1)
    · intro l hl
      rcases List.mem_append.1 hl with hl | hl
      · exact ⟨Nat.le_of_eq (hLc l hl).symm,
          ⟨{ c with id := s.nextId, pageId := cpid }, List.mem_cons_self _ _, hLc l hl⟩⟩
      · obtain ⟨h1, nc, hnc, h2⟩ := ihL l hl
        exact ⟨Nat.le_trans (Nat.le_trans (Nat.le_succ _) hnext) h1,
          nc, List.mem_cons_of_mem _ hnc, h2⟩
    · have hcong : ∀ c2 ∈ rest,
          (((cloneOneComponent cpid (s, m, cl) c).1.layouts.filter
            (fun l => l.componentId = c2.id)).length)
          = ((s.layouts.filter (fun l => l.componentId = c2.id)).length) := by
        intro c2 hc2
        rw [hlay, List.filter_append, List.length_append]
        have hnil : L.filter (fun l => l.componentId = c2.id) = [] := by
          refine List.filter_eq_nil_iff.2 ?_
          intro l hl
          have h1 := hLc l hl
          have h2 := h c2 (List.mem_cons_of_mem _ hc2)
          simp only [h1, decide_eq_true_eq]
          omega
        rw [hnil]
        rfl
      rw [List.length_append, hLlen, ihLlen, List.map_cons, List.sum_cons,
        List.map_congr_left hcong]
    · intro e he
      rcases List.mem_append.1 he with he | he
      · exact ⟨Nat.le_of_eq (hEs e he).symm,
          ⟨{ c with id := s.nextId, pageId := cpid }, List.mem_cons_self _ _, hEs e he⟩⟩
      · obtain ⟨h1, nc, hnc, h2⟩ := ihE e he
        exact ⟨Nat.le_trans (Nat.le_trans (Nat.le_succ _) hnext) h1,
          nc, List.mem_cons_of_mem _ hnc, h2⟩
    · have hcong : ∀ c2 ∈ rest,
          (((cloneOneComponent cpid (s, m, cl) c).1.events.filter
            (fun e => e.sourceId = c2.id)).length)
          = ((s.events.filter (fun e => e.sourceId = c2.id)).length) := by
        intro c2 hc2
        rw [hev, List.filter_append, List.length_append]
        have hnil : E.filter (fun e => e.sourceId = c2.id) = [] := by
          refine List.filter_eq_nil_iff.2 ?_
          intro e he
          have h1 := hEs e he
          have h2 := h c2 (List.mem_cons_of_mem _ hc2)
          simp only [h1, decide_eq_true_eq]
          omega
        rw [hnil]
        rfl
      rw [List.length_append, hElen, ihElen, List.map_cons, List.sum_cons,
        List.map_congr_left hcong]

theorem map_update_not_mem {l : List Component} {cid : Nat} {p : Nat}
    (h : ∀ q ∈ l, ¬(q.id = cid)) :
    l.map (fun q => if q.id = cid then { q with parent := some p } else q) = l := by
  induction l with
  | nil => rfl
  | cons a t ih =>
    rw [List.map_cons, if_neg (h a (List.mem_cons_self _ _)),
      ih (fun q hq => h q (List.mem_cons_of_mem _ hq))]

/-- The parent-remap loop, run over rows that sit at the tail of the
component table and have globally distinct ids, rewrites exactly those
rows through parentFix and leaves every other row and every other table
untouched. -/
theorem parentPass_eq (m : List (Nat × Nat)) :
    ∀ (ps : List Component) (st : Store) (pre : List Component),
      st.components = pre ++ ps →
      (((pre ++ ps).map (fun q => q.id)).Nodup) →
      ps.foldl (parentPassStep m) st
        = { st with components := pre ++ ps.map (parentFix m) } := by
  intro ps
  induction ps with
  | nil =>
    intro st pre hc _
    simp only [List.foldl_nil, List.map_nil]
    rw [← hc]
  | cons c t ih =>
    intro st pre hc hnd
    have hnd' := hnd
    rw [List.map_append] at hnd'
    have hdisj := List.disjoint_of_nodup_append hnd'
    have hndr := (List.nodup_append.1 hnd').2.1
    rw [List.map_cons] at hndr
    have hct : ∀ q ∈ t, ¬(q.id = c.id) := by
      intro q hq heq
      exact (List.pairwise_cons.1 hndr).1 q.id (List.mem_map_of_mem _ hq) heq.symm
    have hpre : ∀ q ∈ pre, ¬(q.id = c.id) := by
      intro q hq heq
      apply hdisj (List.mem_map_of_mem _ hq)
      rw [heq, List.map_cons]
      exact List.mem_cons_self _ _
    rw [List.foldl_cons]
    cases hcp : c.parent.bind (lookupMap m) with
    | none =>
      have hstep : parentPassStep m st c = st := by
        unfold parentPassStep; rw [hcp]
      have hfix : parentFix m c = c := by
        unfold parentFix; rw [hcp]
      have hc2 : st.components = (pre ++ [c]) ++ t := by
        rw [hc, List.append_assoc]; rfl
      have hnd2 : (((pre ++ [c]) ++ t).map (fun q => q.id)).Nodup := by
        rw [List.append_assoc]; exact hnd
      rw [hstep, ih st (pre ++ [c]) hc2 hnd2, List.map_cons, hfix, List.append_assoc]
      rfl
    | some p =>
      have hstep : parentPassStep m st c
          = { st with components := (st.components.map
              (fun q => if q.id = c.id then { q with parent := some p } else q)) } := by
        unfold parentPassStep; rw [hcp]
      have hfix : parentFix m c = { c with parent := some p } := by
        unfold parentFix; rw [hcp]
      have hmap : st.components.map
            (fun q => if q.id = c.id then { q with parent := some p } else q)
          = pre ++ ({ c with parent := some p } :: t) := by
        rw [hc, List.map_append, List.map_cons, if_pos rfl,
          map_update_not_mem hpre, map_update_not_mem hct]
      have hids : ((pre ++ [({ c with parent := some p } : Component)]) ++ t).map
            (fun q => q.id)
          = (pre ++ c :: t).map (fun q => q.id) := by
        simp only [List.append_assoc, List.singleton_append, List.map_append, List.map_cons]
      have hc2 : ({ st with components := pre ++ ({ c with parent := some p } :: t) }
          : Store).components = (pre ++ [({ c with parent := some p } : Component)]) ++ t := by
        rw [List.append_assoc]; rfl
      have hnd2 : (((pre ++ [({ c with parent := some p } : Component)]) ++ t).map
          (fun q => q.id)).Nodup := by
        rw [hids]; exact hnd
      rw [hstep, hmap,
        ih { st with components := pre ++ ({ c with parent := some p } :: t) }
          (pre ++ [{ c with parent := some p }]) hc2 hnd2,
        List.map_cons, hfix, List.append_assoc]
      rfl

theorem clonePageEventsAndComponents_spec (st1 : Store) (pageId cpid : Nat)
    (h1 : ∀ c ∈ st1.components, c.id < st1.nextId)
    (h2 : (st1.components.map (fun c => c.id)).Nodup)
    (h3 : ∀ c ∈ st1.components, ¬(c.id = cpid)) :
    ∃ nC nE1 nL nE2,
      (clonePageEventsAndComponents st1 pageId cpid).pages = st1.pages ∧
      (clonePageEventsAndComponents st1 pageId cpid).versions = st1.versions ∧
      (clonePageEventsAndComponents st1 pageId cpid).components
        = st1.components ++ nC.map (parentFix
            (((st1.components.filter (fun c => c.pageId = pageId)).map
              (fun c => c.id)).zip (nC.map (fun c => c.id)))) ∧
      (clonePageEventsAndComponents st1 pageId cpid).layouts = st1.layouts ++ nL ∧
      (clonePageEventsAndComponents st1 pageId cpid).events = st1.events ++ nE1 ++ nE2 ∧
      List.Forall₂ (fun c nc => nc.pageId = cpid ∧ nc.parent = c.parent)
        (st1.components.filter (fun c => c.pageId = pageId)) nC ∧
      (∀ nc ∈ nC, st1.nextId ≤ nc.id ∧ nc.pageId = cpid) ∧
      (nC.map (fun nc => nc.id)).Pairwise (fun a b => a < b) ∧
      nE1.length = (st1.events.filter (fun e => e.sourceId = pageId)).length ∧
      (∀ e ∈ nE1, e.sourceId = cpid) ∧
      (∀ l ∈ nL, st1.nextId ≤ l.componentId ∧ ∃ nc ∈ nC, l.componentId = nc.id) ∧
      nL.length = ((st1.components.filter (fun c => c.pageId = pageId)).map (fun c =>
        (st1.layouts.filter (fun l => l.componentId = c.id)).length)).sum ∧
      (∀ e ∈ nE2, st1.nextId ≤ e.sourceId ∧ ∃ nc ∈ nC, e.sourceId = nc.id) ∧
      nE2.length = ((st1.components.filter (fun c => c.pageId = pageId)).map (fun c =>
        (st1.events.filter (fun e => e.sourceId = c.id)).length)).sum := by
  have hfold : ∀ c ∈ st1.components.filter (fun c => c.pageId = pageId),
      c.id < (saveEvents st1 ((st1.events.filter (fun e => e.sourceId = pageId)).map
        (fun e => { e with sourceId := cpid,
                           event := remapEventDefinition [] e.event }))).nextId :=
    fun c hc => Nat.lt_of_lt_of_le (h1 c (List.mem_filter.1 hc).1) (Nat.le_add_right _ _)
  obtain ⟨nC, nL, nE2, f1, f2, f3, f4, f5, f6, f7, f8, f9, f10, f11, f12, f13, f14, f15⟩ :=
    cloneFold_spec cpid (st1.components.filter (fun c => c.pageId = pageId))
      (saveEvents st1 ((st1.events.filter (fun e => e.sourceId = pageId)).map
        (fun e => { e with sourceId := cpid,
                           event := remapEventDefinition [] e.event }))) [] [] hfold
  have hE1src : ∀ e ∈ ((st1.events.filter (fun e => e.sourceId = pageId)).map
      (fun e => { e with sourceId := cpid,
                         event := remapEventDefinition [] e.event })).enum.map
        (fun q => { q.2 with id := st1.nextId + q.1 }), e.sourceId = cpid := by
    intro e he
    rcases List.mem_map.1 he with ⟨q, hq, rfl⟩
    rcases List.mem_map.1 (snd_mem_of_mem_enum hq) with ⟨e0, _, heq⟩
    show q.2.sourceId = cpid
    rw [← heq]
  simp only [clonePageEventsAndComponents]
  have hacc := f8.trans (List.nil_append nC)
  have hm2 := f7.trans (List.nil_append _)
  rw [hacc, hm2]
  have hcompseq : _ = st1.components ++ nC := f4
  have hnodup : ((st1.components ++ nC).map (fun q => q.id)).Nodup := by
    rw [List.map_append]
    refine List.Nodup.append h2 (f11.imp ?_) ?_
    · exact fun h => Nat.ne_of_lt h
    · intro a ha hb
      rcases List.mem_map.1 ha with ⟨q, hq, rfl⟩
      rcases List.mem_map.1 hb with ⟨nc, hnc, hEq⟩
      have hql := h1 q hq
      have hncb := Nat.le_trans (Nat.le_add_right _ _) (f10 nc hnc).1
      omega
  rw [parentPass_eq _ nC _ st1.components hcompseq hnodup]
  refine ⟨nC, ?_, nL, nE2, ?_, ?_, ?_, ?_, ?_, ?_, ?_, ?_, ?_, ?_, ?_, ?_, ?_, ?_⟩
  · exact ((st1.events.filter (fun e => e.sourceId = pageId)).map
      (fun e => { e with sourceId := cpid,
                         event := remapEventDefinition [] e.event })).enum.map
        (fun q => { q.2 with id := st1.nextId + q.1 })
  · exact f1
  · exact f2
  · rfl
  · exact f5
  · exact f6
  · exact f9
  · intro nc hnc
    obtain ⟨hb1, _, hb3⟩ := f10 nc hnc
    exact ⟨Nat.le_trans (Nat.le_add_right _ _) hb1, hb3⟩
  · exact f11
  · rw [List.length_map, enum_length, List.length_map]
  · exact hE1src
  · intro l hl
    obtain ⟨hb, hex⟩ := f12 l hl
    exact ⟨Nat.le_trans (Nat.le_add_right _ _) hb, hex⟩
  · exact f13
  · intro e he
    obtain ⟨hb, hex⟩ := f14 e he
    exact ⟨Nat.le_trans (Nat.le_add_right _ _) hb, hex⟩
  · have hcong : ∀ c ∈ st1.components.filter (fun c => c.pageId = pageId),
        ((saveEvents st1 ((st1.events.filter (fun e => e.sourceId = pageId)).map
          (fun e => { e with sourceId := cpid,
                             event := remapEventDefinition [] e.event }))).events.filter
            (fun e => e.sourceId = c.id)).length
        = ((st1.events.filter (fun e => e.sourceId = c.id)).length) := by
      intro c hc
      have he : (saveEvents st1 ((st1.events.filter (fun e => e.sourceId = pageId)).map
          (fun e => { e with sourceId := cpid,
                             event := remapEventDefinition [] e.event }))).events
          = st1.events ++ ((st1.events.filter (fun e => e.sourceId = pageId)).map
            (fun e => { e with sourceId := cpid,
                               event := remapEventDefinition [] e.event })).enum.map
              (fun q => { q.2 with id := st1.nextId + q.1 }) := rfl
      rw [he, List.filter_append, List.length_append]
      have hnil : (((st1.events.filter (fun e => e.sourceId = pageId)).map
          (fun e => { e with sourceId := cpid,
                             event := remapEventDefinition [] e.event })).enum.map
            (fun q => { q.2 with id := st1.nextId + q.1 })).filter
              (fun e => e.sourceId = c.id) = [] := by
        refine List.filter_eq_nil_iff.2 ?_
        intro e he2
        have hs := hE1src e he2
        have hnc := h3 c (List.mem_filter.1 hc).1
        simp only [hs, decide_eq_true_eq]
        omega
      rw [hnil]
      rfl
    rw [List.map_congr_left hcong] at f15
    exact f15

/-- Full description of a successful clonePage run on a well-formed
store: the returned store grows by the cloned page row, the cloned
components (parents remapped through the old-to-new id table), the
cloned layouts and the cloned events, with exact counts. -/
theorem clonePage_spec (st : Store) (pageId vid : Nat) (P : Page)
    (hwf : Store.WF st)
    (hfind : st.pages.find? (fun p => p.id = pageId) = some P) :
    ∃ st2 nC nE1 nL nE2,
      clonePage st pageId vid = .ok (st2, st.nextId) ∧
      st2.pages = st.pages ++ [clonedPageRow st P vid] ∧
      st2.versions = st.versions ∧
      st2.components = st.components ++ nC.map (parentFix
        (((componentsOfPage st pageId).map (fun c => c.id)).zip
          (nC.map (fun c => c.id)))) ∧
      st2.layouts = st.layouts ++ nL ∧
      st2.events = st.events ++ nE1 ++ nE2 ∧
      List.Forall₂ (fun c nc => nc.pageId = st.nextId ∧ nc.parent = c.parent)
        (componentsOfPage st pageId) nC ∧
      (∀ nc ∈ nC, st.nextId < nc.id ∧ nc.pageId = st.nextId) ∧
      (nC.map (fun nc => nc.id)).Pairwise (fun a b => a < b) ∧
      nE1.length = (st.events.filter (fun e => e.sourceId = pageId)).length ∧
      (∀ e ∈ nE1, e.sourceId = st.nextId) ∧
      (∀ l ∈ nL, st.nextId < l.componentId ∧ ∃ nc ∈ nC, l.componentId = nc.id) ∧
      nL.length = ((componentsOfPage st pageId).map (fun c =>
        (st.layouts.filter (fun l => l.componentId = c.id)).length)).sum ∧
      (∀ e ∈ nE2, st.nextId < e.sourceId ∧ ∃ nc ∈ nC, e.sourceId = nc.id) ∧
      nE2.length = ((componentsOfPage st pageId).map (fun c =>
        (st.events.filter (fun e => e.sourceId = c.id)).length)).sum := by
  have h1x : ∀ c ∈ (clonePageInserted st P vid).components,
      c.id < (clonePageInserted st P vid).nextId :=
    fun c hc => Nat.lt_succ_of_lt (hwf.comps_lt c hc)
  have h2x : ((clonePageInserted st P vid).components.map (fun c => c.id)).Nodup :=
    hwf.ids_nodup.sublist
      (((List.sublist_append_right _ _).trans (List.sublist_append_left _ _)).trans
        (List.sublist_append_left _ _))
  have h3x : ∀ c ∈ (clonePageInserted st P vid).components,
      ¬(c.id = st.nextId) :=
    fun c hc => Nat.ne_of_lt (hwf.comps_lt c hc)
  obtain ⟨nC, nE1, nL, nE2, g1, g2, g3, g4, g5, g6, g7, g8, g9, g10, g11, g12, g13, g14⟩ :=
    clonePageEventsAndComponents_spec (clonePageInserted st P vid) pageId st.nextId
      h1x h2x h3x
  simp only [clonePage, hfind]
  refine ⟨_, nC, nE1, nL, nE2, rfl, ?_, ?_, ?_, ?_, ?_, ?_, ?_, ?_, ?_, ?_, ?_, ?_, ?_, ?_⟩
  · exact g1
  · exact g2
  · exact g3
  · exact g4
  · exact g5
  · exact g6
  · exact fun nc h => ⟨(g7 nc h).1, (g7 nc h).2⟩
  · exact g8
  · exact g9
  · exact g10
  · exact fun l hl => ⟨(g11 l hl).1, (g11 l hl).2⟩
  · exact g12
  · exact fun e he => ⟨(g13 e he).1, (g13 e he).2⟩
  · exact g14

theorem parentFix_id (m : List (Nat × Nat)) (c : Component) :
    (parentFix m c).id = c.id := by
  unfold parentFix; split <;> rfl

theorem parentFix_pageId (m : List (Nat × Nat)) (c : Component) :
    (parentFix m c).pageId = c.pageId := by
  unfold parentFix; split <;> rfl

theorem ne_of_length_lt {s t : String} (h : s.length < t.length) : t ≠ s :=
  fun heq => absurd (heq ▸ h) (Nat.lt_irrefl _)

theorem length_filter_or {α : Type} (l : List α) (p q : α → Bool)
    (h : ∀ x ∈ l, ¬(p x = true ∧ q x = true)) :
    (l.filter (fun x => p x || q x)).length
      = (l.filter p).length + (l.filter q).length := by
  induction l with
  | nil => rfl
  | cons a t ih =>
    have ht := ih (fun x hx => h x (List.mem_cons_of_mem _ hx))
    rw [List.filter_cons, List.filter_cons, List.filter_cons]
    cases hp : p a <;> cases hq : q a
    · simp [hp, hq, ht]
    · simp [hp, hq, ht]; omega
    · simp [hp, hq, ht]; omega
    · exact absurd ⟨hp, hq⟩ (h a (List.mem_cons_self _ _))

theorem filter_any_length_eq_sum {α : Type} :
    ∀ (cs : List Component), ((cs.map (fun c => c.id)).Nodup) →
    ∀ (l : List α) (f : α → Nat),
    (l.filter (fun x => cs.any (fun c => c.id = f x))).length
      = (cs.map (fun c => (l.filter (fun x => f x = c.id)).length)).sum := by
  intro cs
  induction cs with
  | nil =>
    intro _ l f
    rw [List.filter_eq_nil_iff.2 (fun a _ => by simp)]
    rfl
  | cons c t ih =>
    intro hnd l f
    rw [List.map_cons] at hnd
    have hdis := (List.pairwise_cons.1 hnd).1
    have hndt := (List.pairwise_cons.1 hnd).2
    have hdisj : ∀ x ∈ l, ¬((decide (c.id = f x)) = true
        ∧ (t.any (fun d => d.id = f x)) = true) := by
      intro x _ hand
      obtain ⟨d, hd, hdp⟩ := List.any_eq_true.1 hand.2
      have h1 := of_decide_eq_true hand.1
      have h2 := of_decide_eq_true hdp
      exact hdis d.id (List.mem_map_of_mem _ hd) (h1.symm ▸ h2.symm)
    calc (l.filter (fun x => (c :: t).any (fun d => d.id = f x))).length
        = (l.filter (fun x =>
            (decide (c.id = f x)) || t.any (fun d => d.id = f x))).length := rfl
      _ = (l.filter (fun x => decide (c.id = f x))).length
          + (l.filter (fun x => t.any (fun d => d.id = f x))).length :=
            length_filter_or l _ _ hdisj
      _ = (l.filter (fun x => f x = c.id)).length
          + (t.map (fun c => (l.filter (fun x => f x = c.id)).length)).sum := by
            rw [List.filter_congr (fun x _ => decide_eq_decide.2 eq_comm), ih hndt l f]
      _ = ((c :: t).map (fun c => (l.filter (fun x => f x = c.id)).length)).sum := by
            rw [List.map_cons, List.sum_cons]

theorem lookupMap_zip_get :
    ∀ (keys vals : List Nat) (j : Nat) (hj : j < keys.length) (hjv : j < vals.length),
      keys.Nodup →
      lookupMap (keys.zip vals) (keys.get ⟨j, hj⟩) = some (vals.get ⟨j, hjv⟩) := by
  intro keys
  induction keys with
  | nil => intro vals j hj; exact absurd hj (Nat.not_lt_zero j)
  | cons k kt ih =>
    intro vals j hj hjv hnd
    cases vals with
    | nil => exact absurd hjv (Nat.not_lt_zero j)
    | cons v vt =>
      cases j with
      | zero =>
        show lookupMap ((k, v) :: kt.zip vt) k = some v
        simp [lookupMap]
      | succ i =>
        have hik : i < kt.length := Nat.lt_of_succ_lt_succ hj
        have hiv : i < vt.length := Nat.lt_of_succ_lt_succ hjv
        have hk : ¬(k = kt.get ⟨i, hik⟩) := fun heq =>
          (List.pairwise_cons.1 hnd).1 _ (List.get_mem kt i hik) heq
        show lookupMap ((k, v) :: kt.zip vt) (kt.get ⟨i, hik⟩) = some (vt.get ⟨i, hiv⟩)
        have hskip : List.find? (fun q => decide (q.1 = kt.get ⟨i, hik⟩))
            ((k, v) :: kt.zip vt)
            = List.find? (fun q => decide (q.1 = kt.get ⟨i, hik⟩)) (kt.zip vt) :=
          List.find?_cons_of_neg _ (by simpa using hk)
        unfold lookupMap
        rw [hskip]
        exact ih vt i hik hiv (List.pairwise_cons.1 hnd).2

theorem filter_clonePage_components (st : Store) (nC : List Component)
    (m : List (Nat × Nat))
    (hpage : ∀ c ∈ st.components, c.pageId < st.nextId)
    (hnc : ∀ nc ∈ nC, nc.pageId = st.nextId) :
    (st.components ++ nC.map (parentFix m)).filter (fun c => c.pageId = st.nextId)
      = nC.map (parentFix m) := by
  rw [List.filter_append,
    List.filter_eq_nil_iff.2 (fun c hc h => by
      have h2 := of_decide_eq_true h
      have h3 := hpage c hc
      omega),
    List.filter_eq_self.2 (fun c hc => by
      rcases List.mem_map.1 hc with ⟨nc, hnc2, rfl⟩
      rw [parentFix_pageId]
      exact decide_eq_true (hnc nc hnc2)),
    List.nil_append]

theorem W_wf : Store.WF W := by
  refine ⟨?_, ?_, ?_, ?_, ?_, ?_, ?_, ?_⟩ <;> decide

/-- C9: clonePage inserts the cloned page row with index equal to the
source index plus one and appends it to the page table; every other page
row, its index included, is left exactly as it was. -/
theorem clonePage_insert_index (st : Store) (pageId vid : Nat) (P : Page)
    (hfind : st.pages.find? (fun p => p.id = pageId) = some P) :
    ∃ st2 NP, clonePage st pageId vid = .ok (st2, st.nextId)
      ∧ NP.id = st.nextId ∧ NP.index = P.index + 1
      ∧ st2.pages = st.pages ++ [NP] := by
  simp only [clonePage, hfind]
  refine ⟨_, clonedPageRow st P vid, rfl, rfl, rfl, ?_⟩
  rw [clonePageEventsAndComponents_pages]
  rfl

/-- C9 witness: the insert-at-index-plus-one shape on the sample store. -/
theorem clonePage_insert_index_check :
    (W.pages.find? (fun p => p.id = 1) = some homePageW)
    ∧ ∃ st2 NP, clonePage W 1 0 = .ok (st2, W.nextId)
      ∧ NP.id = W.nextId ∧ NP.index = homePageW.index + 1
      ∧ st2.pages = W.pages ++ [NP] :=
  ⟨rfl, clonePage_insert_index W 1 0 homePageW rfl⟩

/-- C10: on a well-formed store, clonePage only appends rows: the
pre-existing page, component, layout and event rows survive unchanged as
a prefix of each table, and the version table is untouched. -/
theorem clonePage_only_inserts (st : Store) (pageId vid : Nat) (P : Page)
    (hwf : Store.WF st)
    (hfind : st.pages.find? (fun p => p.id = pageId) = some P) :
    ∃ st2 nid nP nCz nLz nEz,
      clonePage st pageId vid = .ok (st2, nid) ∧
      st2.pages = st.pages ++ nP ∧
      st2.components = st.components ++ nCz ∧
      st2.layouts = st.layouts ++ nLz ∧
      st2.events = st.events ++ nEz ∧
      st2.versions = st.versions := by
  obtain ⟨st2, nC, nE1, nL, nE2, c1, c2, c3, c4, c5, c6, -⟩ :=
    clonePage_spec st pageId vid P hwf hfind
  exact ⟨st2, st.nextId, [clonedPageRow st P vid], _, nL, nE1 ++ nE2, c1, c2, c4, c5,
    by rw [c6, List.append_assoc], c3⟩

/-- C10 witness: the insert-only frame shape on the sample store. -/
theorem clonePage_only_inserts_check :
    (W.pages.find? (fun p => p.id = 1) = some homePageW)
    ∧ ∃ st2 nid nP nCz nLz nEz,
      clonePage W 1 0 = .ok (st2, nid) ∧
      st2.pages = W.pages ++ nP ∧
      st2.components = W.components ++ nCz ∧
      st2.layouts = W.layouts ++ nLz ∧
      st2.events = W.events ++ nEz ∧
      st2.versions = W.versions :=
  ⟨rfl, clonePage_only_inserts W 1 0 homePageW W_wf rfl⟩

/-- C7: on a well-formed store, clonePage yields a cloned page whose name
and handle differ from the source, and the cloned page carries exactly as
many components, layout rows and event handlers as the source page. -/
theorem clonePage_clone_counts (st : Store) (pageId vid : Nat) (P : Page)
    (hwf : Store.WF st)
    (hfind : st.pages.find? (fun p => p.id = pageId) = some P) :
    ∃ st2 nid P2,
      clonePage st pageId vid = .ok (st2, nid) ∧
      st2.pages.getLast? = some P2 ∧
      P2.name ≠ P.name ∧
      P2.handle ≠ P.handle ∧
      (componentsOfPage st2 nid).length = (componentsOfPage st pageId).length ∧
      layoutCountOfPage st2 nid = layoutCountOfPage st pageId ∧
      eventCountOfPage st2 nid = eventCountOfPage st pageId := by
  obtain ⟨st2, nC, nE1, nL, nE2, c1, c2, c3, c4, c5, c6, c7, c8, c9, c10, c11, c12,
    c13, c14, c15⟩ := clonePage_spec st pageId vid P hwf hfind
  have hPmem : P ∈ st.pages := List.mem_of_find?_eq_some hfind
  have hPid : P.id = pageId := by
    have h := List.find?_some hfind
    simpa using h
  have hCompNodup : (st.components.map (fun c => c.id)).Nodup :=
    hwf.ids_nodup.sublist
      (((List.sublist_append_right _ _).trans (List.sublist_append_left _ _)).trans
        (List.sublist_append_left _ _))
  have horigsNodup : ((componentsOfPage st pageId).map (fun c => c.id)).Nodup :=
    hCompNodup.sublist ((List.filter_sublist _).map _)
  have hcompsOf : componentsOfPage st2 st.nextId
      = nC.map (parentFix (((componentsOfPage st pageId).map (fun c => c.id)).zip
          (nC.map (fun c => c.id)))) := by
    unfold componentsOfPage
    rw [c4]
    exact filter_clonePage_components st nC _ hwf.comps_page_lt (fun nc h => (c8 nc h).2)
  have hPagesDisj : (st.pages.map (fun p => p.id)).Disjoint
      (st.components.map (fun c => c.id)) :=
    List.disjoint_of_nodup_append (hwf.ids_nodup.sublist
      ((List.sublist_append_left _ _).trans (List.sublist_append_left _ _)))
  refine ⟨st2, st.nextId, clonedPageRow st P vid, c1, ?_, ?_, ?_, ?_, ?_, ?_⟩
  · rw [c2]
    exact getLast?_append_single _ _
  · show (clonedPageRow st P vid).name ≠ P.name
    simp only [clonedPageRow]
    split
    · apply ne_of_length_lt
      rw [String.length_append, String.length_append, String.length_append]
      have h7 : (" (copy " : String).length = 7 := rfl
      have h8 : (")" : String).length = 1 := rfl
      omega
    · apply ne_of_length_lt
      rw [String.length_append]
      have h7 : (" (copy)" : String).length = 7 := rfl
      omega
  · show (clonedPageRow st P vid).handle ≠ P.handle
    simp only [clonedPageRow]
    split
    · apply ne_of_length_lt
      rw [String.length_append, String.length_append]
      have h6 : ("-copy-" : String).length = 6 := rfl
      omega
    · apply ne_of_length_lt
      rw [String.length_append]
      have h5 : ("-copy" : String).length = 5 := rfl
      omega
  · rw [hcompsOf, List.length_map]
    exact c7.length_eq.symm
  · unfold layoutCountOfPage
    rw [hcompsOf, c5, List.filter_append]
    have lorig : st.layouts.filter (fun l =>
        (nC.map (parentFix (((componentsOfPage st pageId).map (fun c => c.id)).zip
          (nC.map (fun c => c.id))))).any (fun c => c.id = l.componentId)) = [] := by
      refine List.filter_eq_nil_iff.2 (fun l hl h => ?_)
      obtain ⟨c, hc, hcp⟩ := List.any_eq_true.1 h
      rcases List.mem_map.1 hc with ⟨nc, hnc, rfl⟩
      rw [parentFix_id] at hcp
      have h2 := of_decide_eq_true hcp
      have h3 := hwf.layouts_comp_lt l hl
      have h4 := (c8 nc hnc).1
      omega
    have lclone : nL.filter (fun l =>
        (nC.map (parentFix (((componentsOfPage st pageId).map (fun c => c.id)).zip
          (nC.map (fun c => c.id))))).any (fun c => c.id = l.componentId)) = nL := by
      refine List.filter_eq_self.2 (fun l hl => ?_)
      obtain ⟨hb, nc, hnc, heq⟩ := c12 l hl
      refine List.any_eq_true.2 ⟨parentFix _ nc, List.mem_map_of_mem _ hnc, ?_⟩
      rw [parentFix_id]
      exact decide_eq_true heq.symm
    rw [lorig, lclone, List.nil_append, c13]
    exact (filter_any_length_eq_sum (componentsOfPage st pageId) horigsNodup
      st.layouts (fun l => l.componentId)).symm
  · unfold eventCountOfPage
    rw [hcompsOf, c6, List.filter_append, List.filter_append]
    have eorig : st.events.filter (fun e => e.sourceId = st.nextId ||
        (nC.map (parentFix (((componentsOfPage st pageId).map (fun c => c.id)).zip
          (nC.map (fun c => c.id))))).any (fun c => c.id = e.sourceId)) = [] := by
      refine List.filter_eq_nil_iff.2 (fun e he h => ?_)
      have h3 := hwf.events_src_lt e he
      rcases Bool.or_eq_true_iff.1 h with h | h
      · have h2 := of_decide_eq_true h
        omega
      · obtain ⟨c, hc, hcp⟩ := List.any_eq_true.1 h
        rcases List.mem_map.1 hc with ⟨nc, hnc, rfl⟩
        rw [parentFix_id] at hcp
        have h2 := of_decide_eq_true hcp
        have h4 := (c8 nc hnc).1
        omega
    have eclone1 : nE1.filter (fun e => e.sourceId = st.nextId ||
        (nC.map (parentFix (((componentsOfPage st pageId).map (fun c => c.id)).zip
          (nC.map (fun c => c.id))))).any (fun c => c.id = e.sourceId)) = nE1 := by
      refine List.filter_eq_self.2 (fun e he => ?_)
      exact Bool.or_eq_true_iff.2 (Or.inl (decide_eq_true (c11 e he)))
    have eclone2 : nE2.filter (fun e => e.sourceId = st.nextId ||
        (nC.map (parentFix (((componentsOfPage st pageId).map (fun c => c.id)).zip
          (nC.map (fun c => c.id))))).any (fun c => c.id = e.sourceId)) = nE2 := by
      refine List.filter_eq_self.2 (fun e he => ?_)
      obtain ⟨hb, nc, hnc, heq⟩ := c14 e he
      refine Bool.or_eq_true_iff.2 (Or.inr (List.any_eq_true.2
        ⟨parentFix _ nc, List.mem_map_of_mem _ hnc, ?_⟩))
      rw [parentFix_id]
      exact decide_eq_true heq.symm
    rw [eorig, eclone1, eclone2, List.nil_append, List.length_append, c10, c15]
    have hdisj2 : ∀ e ∈ st.events, ¬((decide (e.sourceId = pageId)) = true
        ∧ ((componentsOfPage st pageId).any (fun c => c.id = e.sourceId)) = true) := by
      intro e he hand
      obtain ⟨c, hc, hcp⟩ := List.any_eq_true.1 hand.2
      have h1 := of_decide_eq_true hand.1
      have h2 := of_decide_eq_true hcp
      have hcm : c ∈ st.components := (List.mem_filter.1 hc).1
      exact hPagesDisj (List.mem_map_of_mem _ hPmem)
        (by rw [show P.id = c.id by omega]; exact List.mem_map_of_mem _ hcm)
    rw [length_filter_or st.events (fun e => decide (e.sourceId = pageId))
      (fun e => (componentsOfPage st pageId).any (fun c => c.id = e.sourceId)) hdisj2,
      filter_any_length_eq_sum (componentsOfPage st pageId) horigsNodup
        st.events (fun e => e.sourceId)]

/-- C7 witness: equal counts and fresh name and handle on the sample
store. -/
theorem clonePage_clone_counts_check :
    (W.pages.find? (fun p => p.id = 1) = some homePageW)
    ∧ ∃ st2 nid P2,
      clonePage W 1 0 = .ok (st2, nid) ∧
      st2.pages.getLast? = some P2 ∧
      P2.name ≠ homePageW.name ∧
      P2.handle ≠ homePageW.handle ∧
      (componentsOfPage st2 nid).length = (componentsOfPage W 1).length ∧
      layoutCountOfPage st2 nid = layoutCountOfPage W 1 ∧
      eventCountOfPage st2 nid = eventCountOfPage W 1 :=
  ⟨rfl, clonePage_clone_counts W 1 0 homePageW W_wf rfl⟩

/-- C8: on a well-formed store, whenever the source component at position
i has its parent set to the id of the source component at position j of
the same page, the cloned component at position i has its parent set to
the id of the cloned component at position j, and that id differs from
the original parent id. -/
theorem clonePage_parent_remap (st : Store) (pageId vid : Nat) (P : Page)
    (hwf : Store.WF st)
    (hfind : st.pages.find? (fun p => p.id = pageId) = some P)
    (i j : Nat)
    (hi : i < (componentsOfPage st pageId).length)
    (hj : j < (componentsOfPage st pageId).length)
    (hpar : ((componentsOfPage st pageId).get ⟨i, hi⟩).parent
      = some (((componentsOfPage st pageId).get ⟨j, hj⟩).id)) :
    ∃ st2 nid ci cj,
      clonePage st pageId vid = .ok (st2, nid) ∧
      (componentsOfPage st2 nid).get? i = some ci ∧
      (componentsOfPage st2 nid).get? j = some cj ∧
      ci.parent = some cj.id ∧
      cj.id ≠ ((componentsOfPage st pageId).get ⟨j, hj⟩).id := by
  obtain ⟨st2, nC, nE1, nL, nE2, c1, c2, c3, c4, c5, c6, c7, c8, c9, c10, c11, c12,
    c13, c14, c15⟩ := clonePage_spec st pageId vid P hwf hfind
  have hCompNodup : (st.components.map (fun c => c.id)).Nodup :=
    hwf.ids_nodup.sublist
      (((List.sublist_append_right _ _).trans (List.sublist_append_left _ _)).trans
        (List.sublist_append_left _ _))
  have horigsNodup : ((componentsOfPage st pageId).map (fun c => c.id)).Nodup :=
    hCompNodup.sublist ((List.filter_sublist _).map _)
  have hcompsOf : componentsOfPage st2 st.nextId
      = nC.map (parentFix (((componentsOfPage st pageId).map (fun c => c.id)).zip
          (nC.map (fun c => c.id)))) := by
    unfold componentsOfPage
    rw [c4]
    exact filter_clonePage_components st nC _ hwf.comps_page_lt (fun nc h => (c8 nc h).2)
  have hlen := c7.length_eq
  have hi2 : i < nC.length := hlen ▸ hi
  have hj2 : j < nC.length := hlen ▸ hj
  have hfa := (List.forall₂_iff_get.1 c7).2 i hi hi2
  have hjk : j < ((componentsOfPage st pageId).map (fun c => c.id)).length := by
    rw [List.length_map]; exact hj
  have hjv : j < (nC.map (fun c => c.id)).length := by
    rw [List.length_map]; exact hj2
  have hlk := lookupMap_zip_get ((componentsOfPage st pageId).map (fun c => c.id))
    (nC.map (fun c => c.id)) j hjk hjv horigsNodup
  rw [List.get_map, List.get_map] at hlk
  have hparent_i : (nC.get ⟨i, hi2⟩).parent
      = some (((componentsOfPage st pageId).get ⟨j, hj⟩).id) := by
    rw [hfa.2]; exact hpar
  have hbind : (nC.get ⟨i, hi2⟩).parent.bind
      (lookupMap (((componentsOfPage st pageId).map (fun c => c.id)).zip
        (nC.map (fun c => c.id))))
      = some ((nC.get ⟨j, hj2⟩).id) := by
    rw [hparent_i, Option.some_bind]
    exact hlk
  have hfix : parentFix (((componentsOfPage st pageId).map (fun c => c.id)).zip
        (nC.map (fun c => c.id))) (nC.get ⟨i, hi2⟩)
      = { nC.get ⟨i, hi2⟩ with parent := some ((nC.get ⟨j, hj2⟩).id) } := by
    unfold parentFix
    rw [hbind]
  have hgi : (componentsOfPage st2 st.nextId).get? i
      = some (parentFix (((componentsOfPage st pageId).map (fun c => c.id)).zip
          (nC.map (fun c => c.id))) (nC.get ⟨i, hi2⟩)) := by
    rw [hcompsOf, List.get?_map, List.get?_eq_get hi2]
    rfl
  have hgj : (componentsOfPage st2 st.nextId).get? j
      = some (parentFix (((componentsOfPage st pageId).map (fun c => c.id)).zip
          (nC.map (fun c => c.id))) (nC.get ⟨j, hj2⟩)) := by
    rw [hcompsOf, List.get?_map, List.get?_eq_get hj2]
    rfl
  refine ⟨st2, st.nextId, _, _, c1, hgi, hgj, ?_, ?_⟩
  · rw [hfix, parentFix_id]
  · rw [parentFix_id]
    have h1 := (c8 _ (List.get_mem nC j hj2)).1
    have h2 : (componentsOfPage st pageId).get ⟨j, hj⟩ ∈ st.components :=
      (List.mem_filter.1 (List.get_mem _ j hj)).1
    have h3 := hwf.comps_lt _ h2
    omega

/-- C8 witness: on the sample store, component 4 (parent 3) is cloned as
component 12 with parent 10, the clone of component 3. -/
theorem clonePage_parent_remap_check :
    ∃ (hi : 1 < (componentsOfPage W 1).length) (hj : 0 < (componentsOfPage W 1).length),
      ((componentsOfPage W 1).get ⟨1, hi⟩).parent
        = some (((componentsOfPage W 1).get ⟨0, hj⟩).id)
      ∧ ∃ st2 nid ci cj,
          clonePage W 1 0 = .ok (st2, nid) ∧
          (componentsOfPage st2 nid).get? 1 = some ci ∧
          (componentsOfPage st2 nid).get? 0 = some cj ∧
          ci.parent = some cj.id ∧
          cj.id ≠ ((componentsOfPage W 1).get ⟨0, hj⟩).id :=
  ⟨by decide, by decide, rfl,
    clonePage_parent_remap W 1 0 homePageW W_wf rfl 1 0 (by decide) (by decide) rfl⟩
